import Mathlib

/-!
Verification of the multi-session phone-number validation scheduler.

The JavaScript sources are embedded shallowly: strings become `List Char`
(one entry per UTF-16 unit; all inputs here are ASCII), fallible transport
calls become `Except (List Char) Bool` oracles (a thrown error carries its
message), and the asynchronous schedulers become explicit step relations
driven by a schedule of choices.  Times are naturals (milliseconds),
delay magnitudes are rationals.
-/

/-! ## Normalization (shared by every validator variant)

Source: `src/multi_whatsapp_optimized.js` lines 216-219,
`src/unnamed/part_003` lines 298-301, `src/unnamed/part_002` lines 208-211,
`src/unnamed/part_000` lines 116-119.  All four spell

    const formattedNumber = number.replace(/[^\d]/g, '');
    const whatsappId = formattedNumber.startsWith('962')
        ? `${formattedNumber}@c.us`
        : `962${formattedNumber.substring(1)}@c.us`;
-/

/-- `number.replace(/[^\d]/g, '')`: keep only the digit characters. -/
def stripNonDigits (s : List Char) : List Char := s.filter (fun c => c.isDigit)

/-- The country-code digits `"962"`. -/
def ccJordan : List Char := ['9', '6', '2']

/-- The `"@c.us"` suffix appended for the transport call. -/
def suffixCUs : List Char := ['@', 'c', '.', 'u', 's']

/-- JavaScript `haystack.startsWith(p)` on character lists. -/
def startsList (p : List Char) (l : List Char) : Bool :=
  match p, l with
  | [], _l => true
  | _c :: _p, [] => false
  | a :: p, b :: l => a == b && startsList p l

/-- The normalized identifier as the code computes it (before the
`@c.us` suffix): strip non-digits; keep as-is when the digits start with
`962`; otherwise drop the first digit and prepend `962`. -/
def jsNormalize (s : List Char) : List Char :=
  let formatted := stripNonDigits s
  if startsList ccJordan formatted then formatted
  else ccJordan ++ formatted.drop 1

/-- Modelled from the spec's words (`# 6. EXTERNAL INTERFACES`,
normalization rule), for comparison with the code's computation: strip all
non-digit characters; if the remaining digits already start with the
country code `"962"`, use as-is; otherwise drop the leading digit and
prepend `"962"`. -/
def specNormalize (s : List Char) : List Char :=
  let digits := s.filter (fun c => c.isDigit)
  if startsList ccJordan digits then digits
  else ccJordan ++ digits.drop 1

/-- `src/multi_whatsapp_optimized.js` 216-219: the id handed to
`isRegisteredUser`. -/
def waIdOptimized (number : List Char) : List Char :=
  let formatted := stripNonDigits number
  if startsList ccJordan formatted then formatted ++ suffixCUs
  else ccJordan ++ formatted.drop 1 ++ suffixCUs

/-- `src/unnamed/part_003` 298-301 (SafeWhatsAppValidator.validateNumber). -/
def waIdSafe (number : List Char) : List Char :=
  let formatted := stripNonDigits number
  if startsList ccJordan formatted then formatted ++ suffixCUs
  else ccJordan ++ formatted.drop 1 ++ suffixCUs

/-- `src/unnamed/part_002` 208-211 (MultiWhatsAppValidator.validateNumber). -/
def waIdMulti (number : List Char) : List Char :=
  let formatted := stripNonDigits number
  if startsList ccJordan formatted then formatted ++ suffixCUs
  else ccJordan ++ formatted.drop 1 ++ suffixCUs

/-- `src/unnamed/part_000` 116-119 (WhatsAppValidator.validateNumber). -/
def waIdP0 (number : List Char) : List Char :=
  let formatted := stripNonDigits number
  if startsList ccJordan formatted then formatted ++ suffixCUs
  else ccJordan ++ formatted.drop 1 ++ suffixCUs

theorem startsList_self_append (p t : List Char) :
    startsList p (p ++ t) = true := by
  induction p with
  | nil => rfl
  | cons a p ih => simp [startsList, ih]

theorem mem_stripNonDigits_isDigit {c : Char} {s : List Char}
    (h : c ∈ stripNonDigits s) : c.isDigit = true := by
  simp only [stripNonDigits, List.mem_filter] at h
  exact h.2

theorem stripNonDigits_of_all_digits {s : List Char}
    (h : ∀ c ∈ s, c.isDigit = true) : stripNonDigits s = s := by
  simp only [stripNonDigits]
  exact List.filter_eq_self.mpr h

theorem stripNonDigits_jsNormalize (s : List Char) :
    stripNonDigits (jsNormalize s) = jsNormalize s := by
  apply stripNonDigits_of_all_digits
  intro c hc
  simp only [jsNormalize] at hc
  split at hc
  · exact mem_stripNonDigits_isDigit hc
  · rcases List.mem_append.mp hc with h | h
    · fin_cases h <;> rfl
    · exact mem_stripNonDigits_isDigit (List.mem_of_mem_drop h)

theorem jsNormalize_startsWith_cc (s : List Char) :
    startsList ccJordan (jsNormalize s) = true := by
  simp only [jsNormalize]
  split
  · assumption
  · exact startsList_self_append ccJordan _

/-- C4: for every raw number string, the identifier sent to the transport
is exactly the spec's normalization rule applied to the raw string, with
`"@c.us"` appended; all four validator variants agree, and the code's
normalization coincides with the spec's rule. -/
theorem c4_normalization_bit_exact (number : List Char) :
    jsNormalize number = specNormalize number
      ∧ waIdOptimized number = specNormalize number ++ suffixCUs
      ∧ waIdSafe number = specNormalize number ++ suffixCUs
      ∧ waIdMulti number = specNormalize number ++ suffixCUs
      ∧ waIdP0 number = specNormalize number ++ suffixCUs := by
  cases h : startsList ccJordan (List.filter (fun c => c.isDigit) number) <;>
    simp [jsNormalize, specNormalize, waIdOptimized, waIdSafe, waIdMulti,
      waIdP0, stripNonDigits, h, List.append_assoc]

/-- C5 counterexample: stripping the leading digit happens even when that
digit is not a local trunk `0`, so the bare local variant `"791234567"`
normalizes to `"96291234567"`, not to the claimed `"962791234567"`. -/
theorem c5_cex_bare_variant :
    jsNormalize "791234567".toList = "96291234567".toList
      ∧ jsNormalize "791234567".toList ≠ "962791234567".toList := by
  constructor
  · rfl
  · decide

/-- C5 (amended): normalization is idempotent, and
`normalize("0791234567") = "962791234567"`, but the bare variant without
the leading zero normalizes differently:
`normalize("791234567") = "96291234567"`. -/
theorem c5_idempotent_amended (x : List Char) :
    jsNormalize (jsNormalize x) = jsNormalize x
      ∧ jsNormalize "0791234567".toList = "962791234567".toList
      ∧ jsNormalize "791234567".toList = "96291234567".toList := by
  refine ⟨?_, rfl, rfl⟩
  have hstrip := stripNonDigits_jsNormalize x
  have hcc := jsNormalize_startsWith_cc x
  conv_lhs => rw [jsNormalize]
  simp only [hstrip, hcc, if_pos]

/-! ## Rate limiter (SafeWhatsAppValidator.checkRateLimit)

Source: `src/unnamed/part_003` lines 269-289.

    const now = Date.now();
    const hourElapsed = now - session.hourStartTime;
    if (hourElapsed > 3600000) {
        session.totalChecksThisHour = 0;
        session.hourStartTime = now;
    }
    if (session.totalChecksThisHour >= this.options.maxChecksPerHour) {
        const waitTime = 3600000 - hourElapsed;
        await this.delay(waitTime);
        session.totalChecksThisHour = 0;
        session.hourStartTime = Date.now();
    }
    session.totalChecksThisHour++;

The wait is modelled as exact: after `delay(waitTime)` the clock reads
`now + waitTime`, and the check itself happens when `checkRateLimit`
returns. -/

/-- The session fields the limiter touches. -/
structure RateState where
  hourStartTime : Nat
  totalChecksThisHour : Nat
deriving DecidableEq, Repr

/-- One call of `checkRateLimit`: the updated session fields, how long the
call blocked, and the instant at which the following check runs. -/
structure RateStep where
  state : RateState
  waited : Nat
  checkTime : Nat
deriving DecidableEq, Repr

def checkRateLimit (maxPerHour : Nat) (s : RateState) (now : Nat) : RateStep :=
  let hourElapsed := now - s.hourStartTime
  let s1 := if 3600000 < hourElapsed then RateState.mk now 0 else s
  if maxPerHour ≤ s1.totalChecksThisHour then
    let waitTime := 3600000 - hourElapsed
    { state := ⟨now + waitTime, 0 + 1⟩, waited := waitTime,
      checkTime := now + waitTime }
  else
    { state := ⟨s1.hourStartTime, s1.totalChecksThisHour + 1⟩, waited := 0,
      checkTime := now }

/-- Run the limiter over a list of attempt instants, collecting the
instant at which each check actually runs. -/
def runRate (maxPerHour : Nat) (s : RateState) : List Nat → List Nat
  | [] => []
  | t :: ts =>
    let st := checkRateLimit maxPerHour s t
    st.checkTime :: runRate maxPerHour st.state ts

/-- Checks falling in the half-open interval `[a, a + len)`. -/
def checksWithin (checks : List Nat) (a len : Nat) : Nat :=
  (checks.filter (fun t => a ≤ t && t < a + len)).length

/-- C3 counterexample: with `maxPerWindow = 2` the limiter admits checks
at 0 ms and 3599999 ms (second window position 2), then the fixed window
resets at 3600001 ms and admits two more at 3600001 ms and 3600002 ms —
so the rolling interval `[3, 3600003)` of length exactly
`windowDurationMs = 3600000` contains 3 > 2 checks. -/
theorem c3_cex_rolling_window_exceeded :
    runRate 2 ⟨0, 0⟩ [0, 3599999, 3600001, 3600002] =
        [0, 3599999, 3600001, 3600002]
      ∧ checksWithin [0, 3599999, 3600001, 3600002] 3 3600000 = 3
      ∧ 2 < 3 := by
  refine ⟨rfl, rfl, by omega⟩

/-- The conclusion of the amended C3 claim for one `checkRateLimit` call:
the three code paths behave exactly as the spec's mechanical description
says, and the counter never exceeds the cap. -/
def ratePost (maxPerHour : Nat) (s : RateState) (now : Nat) : Prop :=
  (3600000 < now - s.hourStartTime →
      checkRateLimit maxPerHour s now =
        ⟨⟨now, 0 + 1⟩, 0, now⟩)
  ∧ (¬ 3600000 < now - s.hourStartTime →
      s.totalChecksThisHour < maxPerHour →
      checkRateLimit maxPerHour s now =
        ⟨⟨s.hourStartTime, s.totalChecksThisHour + 1⟩, 0, now⟩)
  ∧ (¬ 3600000 < now - s.hourStartTime →
      maxPerHour ≤ s.totalChecksThisHour →
      (checkRateLimit maxPerHour s now).waited =
          3600000 - (now - s.hourStartTime)
        ∧ (checkRateLimit maxPerHour s now).state =
            ⟨now + (3600000 - (now - s.hourStartTime)), 0 + 1⟩
        ∧ (checkRateLimit maxPerHour s now).checkTime =
            now + (3600000 - (now - s.hourStartTime)))
  ∧ (checkRateLimit maxPerHour s now).state.totalChecksThisHour ≤ maxPerHour

/-- C3 (amended): the per-call mechanics are exactly as claimed — on each
attempt the window and counter reset when `now - windowStartTime` exceeds
`windowDurationMs`, and a session at the cap blocks for
`windowDurationMs - (now - windowStartTime)` and then resets, never
dropping the check — and the counter never exceeds `maxPerWindow`; but the
cap is enforced per fixed window, not over arbitrary rolling intervals
(see the counterexample). -/
theorem c3_fixed_window_amended (maxPerHour : Nat) (s : RateState)
    (now : Nat) (hmax : 1 ≤ maxPerHour)
    (hcount : s.totalChecksThisHour ≤ maxPerHour) :
    ratePost maxPerHour s now := by
  unfold ratePost checkRateLimit
  refine ⟨?_, ?_, ?_, ?_⟩
  · intro h
    simp only [if_pos h]
    rw [if_neg (by omega)]
  · intro h hlt
    simp only [if_neg h]
    rw [if_neg (by omega)]
  · intro h hge
    simp only [if_neg h]
    rw [if_pos (by omega)]
    exact ⟨rfl, rfl, rfl⟩
  · by_cases h1 : 3600000 < now - s.hourStartTime
    · simp only [if_pos h1]
      split <;> dsimp only <;> omega
    · simp only [if_neg h1]
      split <;> dsimp only <;> omega

/-- Witness for the amended C3 theorem: the blocked path at
`maxPerWindow = 2`, counter already 2, 100 ms into the window. -/
theorem c3_fixed_window_amended_witness : ratePost 2 ⟨0, 2⟩ 100 :=
  c3_fixed_window_amended 2 ⟨0, 2⟩ 100 (by decide) (by decide)

/-! ## Readiness wait (no timeout)

Source: `src/unnamed/part_000` lines 102-111 (`waitForReady`, a 1000 ms
`setInterval` polling `this.isReady` forever) and `src/unnamed/part_003`
lines 162-166 (`while (!session.ready) await this.delay(1000)`).  Both
loops poll a boolean flag with no timeout and no failure path.  The flag's
value at the n-th poll is an arbitrary trace `ready : Nat → Bool`; the
loop is run with explicit fuel and returns the tick at which it saw the
flag set, if it ever did. -/

def waitPoll (ready : Nat → Bool) (tick : Nat) : Nat → Option Nat
  | 0 => none
  | fuel + 1 => if ready tick then some tick else waitPoll ready (tick + 1) fuel

/-- The readiness wait completes within some finite number of polls. -/
def waitCompletes (ready : Nat → Bool) : Prop :=
  ∃ fuel, (waitPoll ready 0 fuel).isSome = true

theorem waitPoll_never_ready (ready : Nat → Bool)
    (h : ∀ t, ready t = false) :
    ∀ fuel tick, waitPoll ready tick fuel = none := by
  intro fuel
  induction fuel with
  | zero => intro tick; rfl
  | succ n ih => intro tick; simp [waitPoll, h tick, ih]

theorem waitPoll_finds (ready : Nat → Bool) :
    ∀ fuel tick, (∃ k, k < fuel ∧ ready (tick + k) = true) →
      (waitPoll ready tick fuel).isSome = true := by
  intro fuel
  induction fuel with
  | zero => intro tick ⟨k, hk, _h⟩; omega
  | succ n ih =>
    intro tick ⟨k, hk, hr⟩
    by_cases h0 : ready tick
    · simp [waitPoll, h0]
    · cases k with
      | zero => simp at hr; simp_all
      | succ m =>
        simp only [waitPoll, h0, if_neg, Bool.false_eq_true, if_false]
        exact ih (tick + 1) ⟨m, by omega, by rw [← hr]; ring_nf⟩

/-- C8 counterexample: a session whose ready flag is never set is polled
forever — the readiness wait is not bounded by any timeout and no failure
is ever reported, contradicting the claim that it is. -/
theorem c8_cex_unbounded_ready_wait :
    ¬ waitCompletes (fun _t => false) := by
  rintro ⟨fuel, h⟩
  rw [waitPoll_never_ready (fun _t => false) (fun _t => rfl) fuel 0] at h
  simp at h

/-- C8 (amended): the rate limiter's computed wait is always bounded by
the window duration, but the session-readiness wait has no timeout: it
completes exactly when the ready flag is eventually set, and a session
that never becomes ready is polled forever with nothing reported. -/
theorem c8_waits_amended :
    (∀ maxPerHour s now,
        (checkRateLimit maxPerHour s now).waited ≤ 3600000)
      ∧ (∀ ready : Nat → Bool, ∀ n, ready n = true → waitCompletes ready)
      ∧ (∀ ready : Nat → Bool, (∀ t, ready t = false) →
          ¬ waitCompletes ready) := by
  refine ⟨?_, ?_, ?_⟩
  · intro maxPerHour s now
    unfold checkRateLimit
    by_cases h1 : 3600000 < now - s.hourStartTime
    · simp only [if_pos h1]
      split <;> dsimp only <;> omega
    · simp only [if_neg h1]
      split <;> dsimp only <;> omega
  · intro ready n hn
    exact ⟨n + 1, waitPoll_finds ready (n + 1) 0 ⟨n, by omega, by simpa using hn⟩⟩
  · intro ready h ⟨fuel, hc⟩
    rw [waitPoll_never_ready ready h fuel 0] at hc
    simp at hc

/-- Witness for the amended C8 theorem: a flag set at the fourth poll
makes the wait complete. -/
theorem c8_waits_amended_witness : waitCompletes (fun t => t == 3) :=
  c8_waits_amended.2.1 (fun t => t == 3) 3 (by rfl)

/-! ## SafeWhatsAppValidator per-number check and batch

Source: `src/unnamed/part_003`.
`validateNumber` (296-343) catches a transport failure, but when the
lowercased message contains `"ban"` or `"block"` it rethrows; otherwise it
returns a `status: 'error'` result.  `validateSessionChunk` (220-264) does
not catch, so a rethrown error propagates; `validateBatch` (185-212)
awaits `Promise.all` over the per-session chunk promises, which rejects as
soon as any chunk rejects.  The transport is an oracle
`check : Nat → Except (List Char) Bool` indexed by the position inside the
chunk (`oracle k j` below: session `k`, position `j`). -/

/-- JavaScript `haystack.includes(needle)` on character lists. -/
def hasSub (needle : List Char) : List Char → Bool
  | [] => startsList needle []
  | c :: rest => startsList needle (c :: rest) || hasSub needle rest

/-- `error.message && (msg.toLowerCase().includes('ban') ||
msg.toLowerCase().includes('block'))` — an empty message is falsy in
JavaScript and `hasSub "ban" []` is `false`, so the two agree. -/
def isBanMsg (msg : List Char) : Bool :=
  let low := msg.map Char.toLower
  hasSub "ban".toList low || hasSub "block".toList low

/-- The fields of the result object built by part_003's `validateNumber`
that the claims mention. -/
structure SafeResult where
  number : List Char
  whatsappId : List Char
  registered : Bool
  success : Bool
  errMsg : Option (List Char)
deriving DecidableEq, Repr

/-- `SafeWhatsAppValidator.validateNumber` (lines 296-343): on success a
`status: 'success'` result with the registration boolean; on a thrown
transport error, rethrow when the message matches the ban/block
signature, otherwise a `status: 'error'` result carrying the message. -/
def validateNumberSafe (check : Except (List Char) Bool)
    (number : List Char) : Except (List Char) SafeResult :=
  match check with
  | Except.ok b => Except.ok ⟨number, waIdSafe number, b, true, none⟩
  | Except.error e =>
    if isBanMsg e then Except.error e
    else Except.ok ⟨number, [], false, false, some e⟩

/-- `validateSessionChunk` (lines 220-264), outcome only: the results the
session pushes, or the first uncaught (ban) error; `i` is the position of
the head of `numbers` inside the chunk. -/
def validateSessionChunkE (check : Nat → Except (List Char) Bool)
    (i : Nat) (numbers : List (List Char)) :
    Except (List Char) (List SafeResult) :=
  match numbers with
  | [] => Except.ok []
  | x :: xs =>
    match validateNumberSafe (check i) x with
    | Except.error e => Except.error e
    | Except.ok r =>
      match validateSessionChunkE check (i + 1) xs with
      | Except.ok rs => Except.ok (r :: rs)
      | Except.error e => Except.error e

/-- `distributeWork` (lines 345-356): split into `chunksN` slices of size
`Math.ceil(length / chunksN)`. -/
def distributeWork (l : List (List Char)) (chunksN : Nat) :
    List (List (List Char)) :=
  let chunkSize := (l.length + chunksN - 1) / chunksN
  (List.range chunksN).map (fun i => (l.drop (i * chunkSize)).take chunkSize)

/-- `await Promise.all(...)`: the concatenated results when every chunk
promise fulfills, otherwise the first rejection. -/
def promiseAll (tasks : List (Except (List Char) (List SafeResult))) :
    Except (List Char) (List SafeResult) :=
  match tasks with
  | [] => Except.ok []
  | Except.error e :: _rest => Except.error e
  | Except.ok rs :: rest =>
    match promiseAll rest with
    | Except.ok more => Except.ok (rs ++ more)
    | Except.error e => Except.error e

/-- `SafeWhatsAppValidator.validateBatch` (lines 185-212): distribute the
numbers over the sessions, run every non-empty chunk, await all. -/
def validateBatchSafe (oracle : Nat → Nat → Except (List Char) Bool)
    (numbers : List (List Char)) (sessions : Nat) :
    Except (List Char) (List SafeResult) :=
  let chunks := distributeWork numbers sessions
  promiseAll ((List.range sessions).filterMap (fun k =>
    match chunks.get? k with
    | some c => if 0 < c.length then some (validateSessionChunkE (oracle k) 0 c)
                else none
    | none => none))

/-- A two-session transport where session 0 is banned on its first check
and session 1 succeeds. -/
def oraBan : Nat → Nat → Except (List Char) Bool := fun k _j =>
  if k = 0 then Except.error "banned".toList else Except.ok true

/-- C2 counterexample: with two sessions of one item each, session 0's
ban error propagates out of its chunk, `Promise.all` rejects, and
`validateBatch` aborts the whole run with that error — session 1's result
is not delivered, contradicting "the whole run never aborts ... the run
completes with results for the items they handle". -/
theorem c2_cex_run_aborts :
    validateBatchSafe oraBan
        ["0791111111".toList, "0792222222".toList] 2 =
      Except.error "banned".toList := by
  rfl

theorem validateSessionChunkE_stops_at_ban
    (check check2 : Nat → Except (List Char) Bool) (e : List Char) :
    ∀ (pre : List (List Char)) (i : Nat) (x : List Char)
      (post : List (List Char)),
      (∀ j, j < pre.length → ∃ b, check (i + j) = Except.ok b) →
      check (i + pre.length) = Except.error e → isBanMsg e = true →
      (∀ j, j ≤ pre.length → check2 (i + j) = check (i + j)) →
      validateSessionChunkE check2 i (pre ++ x :: post) = Except.error e := by
  intro pre
  induction pre with
  | nil =>
    intro i x post _hok herr hban hagree
    have h2 : check2 i = Except.error e := by
      have := hagree 0 (by omega)
      simpa using this.trans (by simpa using herr)
    simp only [List.nil_append, validateSessionChunkE, h2,
      validateNumberSafe, hban, if_pos]
  | cons y ys ih =>
    intro i x post hok herr hban hagree
    obtain ⟨b, hb⟩ := hok 0 (by simp)
    have h2 : check2 i = Except.ok b := by
      have := hagree 0 (by omega)
      simpa using this.trans (by simpa using hb)
    have hrest := ih (i + 1) x post
      (fun j hj => by
        have := hok (j + 1) (by simpa using Nat.succ_lt_succ hj)
        simpa [Nat.add_assoc, Nat.add_comm 1 j] using this)
      (by simpa [Nat.add_assoc, Nat.add_comm 1 ys.length] using herr)
      hban
      (fun j hj => by
        have := hagree (j + 1) (by simpa using Nat.succ_le_succ hj)
        simpa [Nat.add_assoc, Nat.add_comm 1 j] using this)
    simp only [List.cons_append, validateSessionChunkE, h2,
      validateNumberSafe, List.append_eq, hrest]

theorem promiseAll_rejects (ts1 ts2 : List (Except (List Char) (List SafeResult)))
    (e : List Char) :
    ∃ e2, promiseAll (ts1 ++ Except.error e :: ts2) = Except.error e2 := by
  induction ts1 with
  | nil => exact ⟨e, rfl⟩
  | cons t ts ih =>
    obtain ⟨e2, h2⟩ := ih
    match t with
    | Except.error e3 => exact ⟨e3, rfl⟩
    | Except.ok rs =>
      refine ⟨e2, ?_⟩
      simp only [List.cons_append, promiseAll, List.append_eq, h2]

/-- C2 (amended): a ban/block-signature error is rethrown by
`validateNumber` rather than captured (surfacing it to the operator), and
the session processes no further items of its chunk — the chunk's outcome
is that error, independent of the transport's behaviour beyond the failing
position; but the error then propagates through `Promise.all`, so
`validateBatch` itself rejects and the whole run aborts instead of
completing with the other sessions' results. -/
theorem c2_ban_aborts_run_amended :
    (∀ e number, isBanMsg e = true →
        validateNumberSafe (Except.error e) number = Except.error e)
      ∧ (∀ (check check2 : Nat → Except (List Char) Bool) (e : List Char)
          (pre : List (List Char)) (x : List Char) (post : List (List Char)),
          (∀ j, j < pre.length → ∃ b, check j = Except.ok b) →
          check pre.length = Except.error e → isBanMsg e = true →
          (∀ j, j ≤ pre.length → check2 j = check j) →
          validateSessionChunkE check2 0 (pre ++ x :: post) = Except.error e)
      ∧ (∀ ts1 ts2 e, ∃ e2,
          promiseAll (ts1 ++ Except.error e :: ts2) = Except.error e2) := by
  refine ⟨?_, ?_, promiseAll_rejects⟩
  · intro e number hban
    simp [validateNumberSafe, hban]
  · intro check check2 e pre x post hok herr hban hagree
    exact validateSessionChunkE_stops_at_ban check check2 e pre 0 x post
      (by simpa using hok) (by simpa using herr) hban (by simpa using hagree)

/-- Witness for the amended C2 theorem: a one-item chunk whose first check
throws `"blocked"` makes the chunk reject with `"blocked"`. -/
theorem c2_ban_aborts_run_amended_witness :
    validateSessionChunkE (fun _j => Except.error "blocked".toList) 0
        ["0790000000".toList] = Except.error "blocked".toList :=
  c2_ban_aborts_run_amended.2.1 (fun _j => Except.error "blocked".toList)
    (fun _j => Except.error "blocked".toList) "blocked".toList [] 
    "0790000000".toList []
    (fun j hj => absurd hj (Nat.not_lt_zero j)) rfl (by decide)
    (fun _j _hj => rfl)

/-! ## MultiWhatsAppValidator per-number check

Source: `src/unnamed/part_002` lines 206-248.  `validateNumber` wraps the
whole check in try/catch and always returns a result object; the inner
profile-picture fetch has its own try/catch that degrades to
`has_profile_pic: false`.  The picture oracle yields the url
(`none` models a missing/absent url, which is falsy under `!!picUrl`). -/

/-- The fields of part_002's result object that the claims mention. -/
structure MultiResult where
  number : List Char
  whatsappId : List Char
  registered : Bool
  hasProfilePic : Bool
  success : Bool
  errMsg : Option (List Char)
deriving DecidableEq, Repr

/-- `MultiWhatsAppValidator.validateNumber` (lines 206-248). -/
def validateNumberMulti (check : Except (List Char) Bool)
    (pic : Except (List Char) (Option (List Char)))
    (number : List Char) : Except (List Char) MultiResult :=
  match check with
  | Except.ok b =>
    let p : Bool := if b then
        (match pic with
         | Except.ok u => u.isSome
         | Except.error _e => false)
      else false
    Except.ok ⟨number, waIdMulti number, b, p, true, none⟩
  | Except.error e => Except.ok ⟨number, [], false, false, false, some e⟩

/-- C7 counterexample: the claim covers part_003's `validateNumber` too,
but that variant rethrows a transport failure whose message matches the
ban signature instead of capturing it in the result's error fields — the
per-number check does throw to its caller. -/
theorem c7_cex_safe_variant_throws :
    validateNumberSafe (Except.error "banned".toList) "0790000000".toList =
      Except.error "banned".toList := by
  rfl

/-- C7 (amended): part_002's `validateNumber` never throws — every
transport failure is captured into a `status: 'error'` result carrying the
message, and a successful check yields `status: 'success'` with the
registration boolean; part_003's `validateNumber` behaves the same way
except that a failure whose message matches the ban/block signature is
rethrown to the caller. -/
theorem c7_never_throws_amended :
    (∀ check pic number, ∃ r,
        validateNumberMulti check pic number = Except.ok r
          ∧ (∀ b, check = Except.ok b →
              r.success = true ∧ r.registered = b ∧ r.errMsg = none)
          ∧ (∀ e, check = Except.error e →
              r.success = false ∧ r.errMsg = some e))
      ∧ (∀ b number, validateNumberSafe (Except.ok b) number =
          Except.ok ⟨number, waIdSafe number, b, true, none⟩)
      ∧ (∀ e number, isBanMsg e = false →
          validateNumberSafe (Except.error e) number =
            Except.ok ⟨number, [], false, false, some e⟩)
      ∧ (∀ e number, isBanMsg e = true →
          validateNumberSafe (Except.error e) number = Except.error e) := by
  refine ⟨?_, fun b number => rfl, ?_, ?_⟩
  · intro check pic number
    match check with
    | Except.ok b =>
      refine ⟨_, rfl, ?_, ?_⟩
      · intro b2 hb2
        cases hb2
        exact ⟨rfl, rfl, rfl⟩
      · intro e he
        cases he
    | Except.error e =>
      refine ⟨_, rfl, ?_, ?_⟩
      · intro b2 hb2
        cases hb2
      · intro e2 he2
        cases he2
        exact ⟨rfl, rfl⟩
  · intro e number hban
    simp [validateNumberSafe, hban]
  · intro e number hban
    simp [validateNumberSafe, hban]

/-- Witness for the amended C7 theorem: a non-ban transport failure
(`"timeout"`) is captured by both variants as a `status: 'error'` result. -/
theorem c7_never_throws_amended_witness :
    validateNumberSafe (Except.error "timeout".toList) "0791112223".toList =
      Except.ok ⟨"0791112223".toList, [], false, false,
        some "timeout".toList⟩ :=
  c7_never_throws_amended.2.2.1 "timeout".toList "0791112223".toList
    (by decide)

/-! ## Optimized scheduler (multi_whatsapp_optimized.js)

Source: `src/multi_whatsapp_optimized.js`.

Constructor option merge (lines 24-32):

    this.options = { ..., maxRetries: options.maxRetries || 2, ...options };

`processNumber` (lines 210-273): `while (retries < maxRetries)` — each
iteration performs one transport call; on success it pushes a success
result, deletes the item from `processing` and returns; on a throw it
increments `retries` and, once `retries >= maxRetries`, pushes a
`status: 'error'` result, deletes the item and returns; with
`maxRetries = 0` the loop body never runs and the function returns
`undefined` without touching anything.

`sessionWorker` (lines 170-208): repeatedly `shift()`s the queue; a falsy
item (`if (number)`) is discarded without being processed; a truthy item
is added to the `processing` Set and a `processNumber` task is spawned;
the loop runs while the queue or the `processing` Set is non-empty, and
on exit the worker awaits its outstanding tasks.  `validateBatch`
(lines 126-168) completes when every worker returns.  The interleaving of
the concurrent workers is an arbitrary schedule of `take`/`complete`
choices over one shared state. -/

/-- JavaScript truthiness of a string item: only `""` is falsy. -/
def jsTruthy (s : List Char) : Bool := !s.isEmpty

/-- JavaScript `v || d` for an optionally-supplied numeric option:
`0` and `undefined` are falsy. -/
def jsOrNat : Option Nat → Nat → Nat
  | some v, d => if v = 0 then d else v
  | none, d => d

/-- The constructor's `maxRetries` after the defaulted field is merged
with the trailing `...options` spread, which overrides the default with
the supplied value whenever the key is present — even when it is `0`. -/
def constructedMaxRetries (supplied : Option Nat) : Nat :=
  let defaulted := jsOrNat supplied 2
  match supplied with
  | some v => v
  | none => defaulted

/-- The fields of `processNumber`'s result object the claims mention. -/
structure OptResult where
  number : List Char
  registered : Bool
  success : Bool
  errMsg : Option (List Char)
deriving DecidableEq, Repr

/-- `processNumber`'s retry loop body, recursing on the number of loop
iterations still permitted (`fuel = maxRetries - retries`, so `fuel = 0`
is exactly the loop guard `retries < maxRetries` failing); the transport
call for attempt `k` is `check k`. -/
def pnGo (check : Nat → Except (List Char) Bool) (maxRetries : Nat)
    (number : List Char) : Nat → Nat → Option OptResult
  | _retries, 0 => none
  | retries, fuel + 1 =>
    match check retries with
    | Except.ok b => some ⟨number, b, true, none⟩
    | Except.error e =>
      if maxRetries ≤ retries + 1 then some ⟨number, false, false, some e⟩
      else pnGo check maxRetries number (retries + 1) fuel

/-- `processNumber`'s retry loop for one item, from loop counter
`retries`.  Returns the single terminal result, or `none` when the loop
body never runs (`maxRetries = 0`). -/
def processNumberGo (check : Nat → Except (List Char) Bool)
    (maxRetries : Nat) (number : List Char) (retries : Nat) :
    Option OptResult :=
  pnGo check maxRetries number retries (maxRetries - retries)

/-- How many transport calls the loop body makes, same recursion. -/
def paGo (check : Nat → Except (List Char) Bool) (maxRetries : Nat) :
    Nat → Nat → Nat
  | _retries, 0 => 0
  | retries, fuel + 1 =>
    match check retries with
    | Except.ok _b => 1
    | Except.error _e =>
      if maxRetries ≤ retries + 1 then 1
      else 1 + paGo check maxRetries (retries + 1) fuel

/-- How many transport calls `processNumber`'s loop makes from loop
counter `retries`. -/
def processAttemptsGo (check : Nat → Except (List Char) Bool)
    (maxRetries : Nat) (retries : Nat) : Nat :=
  paGo check maxRetries retries (maxRetries - retries)

/-- JS `Set.delete`: remove the stored occurrence of `v`, if any. -/
def eraseOne (v : List Char) : List (List Char) → List (List Char)
  | [] => []
  | w :: ws => if w = v then ws else w :: eraseOne v ws

theorem perm_cons_eraseOne {v : List Char} :
    ∀ {l : List (List Char)}, v ∈ l → l.Perm (v :: eraseOne v l) := by
  intro l
  induction l with
  | nil => intro h; cases h
  | cons w ws ih =>
    intro h
    by_cases hw : w = v
    · subst hw
      simp [eraseOne]
    · have hv : v ∈ ws := by
        rcases List.mem_cons.mp h with h1 | h1
        · exact absurd h1.symm hw
        · exact h1
      have step : (w :: ws).Perm (w :: (v :: eraseOne v ws)) :=
        List.Perm.cons w (ih hv)
      refine step.trans ?_
      simpa [eraseOne, hw] using List.Perm.swap v w (eraseOne v ws)

/-- The shared scheduler state: the work queue, the `processing` Set
(value-deduplicated, as a JS Set of primitive strings), the spawned but
unresolved `processNumber` tasks, and the shared results array. -/
structure OptState where
  workQueue : List (List Char)
  procSet : List (List Char)
  inFlight : List (List Char)
  results : List OptResult
deriving DecidableEq, Repr

def initOpt (items : List (List Char)) : OptState := ⟨items, [], [], []⟩

/-- One scheduler event: a worker shifts the queue, or one outstanding
`processNumber` task resolves. -/
inductive SchedChoice
  | take
  | complete (v : List Char)
deriving DecidableEq, Repr

/-- JS `Set.add`: insert unless already present. -/
def setAdd (v : List Char) (l : List (List Char)) : List (List Char) :=
  if v ∈ l then l else v :: l

def stepOpt (oracle : List Char → Nat → Except (List Char) Bool)
    (maxRetries : Nat) (c : SchedChoice) (s : OptState) : OptState :=
  match c with
  | SchedChoice.take =>
    match s.workQueue with
    | [] => s
    | v :: rest =>
      if jsTruthy v then
        { workQueue := rest, procSet := setAdd v s.procSet,
          inFlight := v :: s.inFlight, results := s.results }
      else { s with workQueue := rest }
  | SchedChoice.complete v =>
    if v ∈ s.inFlight then
      match processNumberGo (oracle v) maxRetries v 0 with
      | some r =>
        { workQueue := s.workQueue, procSet := eraseOne v s.procSet,
          inFlight := eraseOne v s.inFlight, results := s.results ++ [r] }
      | none => { s with inFlight := eraseOne v s.inFlight }
    else s

def runOpt (oracle : List Char → Nat → Except (List Char) Bool)
    (maxRetries : Nat) : List SchedChoice → OptState → OptState
  | [], s => s
  | c :: cs, s => runOpt oracle maxRetries cs (stepOpt oracle maxRetries c s)

/-- `validateBatch` has reported completion: every worker's loop condition
is false and no task is outstanding. -/
def isCompleteOpt (s : OptState) : Prop :=
  s.workQueue = [] ∧ s.procSet = [] ∧ s.inFlight = []

instance (s : OptState) : Decidable (isCompleteOpt s) := by
  unfold isCompleteOpt; infer_instance

theorem pnGo_number (check : Nat → Except (List Char) Bool)
    (number : List Char) :
    ∀ (fuel maxRetries retries : Nat) (r : OptResult),
      pnGo check maxRetries number retries fuel = some r →
      r.number = number := by
  intro fuel
  induction fuel with
  | zero => intro m retries r hr; cases hr
  | succ n ih =>
    intro m retries r hr
    rw [pnGo] at hr
    cases hc : check retries with
    | ok b => simp only [hc] at hr; cases hr; rfl
    | error e =>
      simp only [hc] at hr
      by_cases hm : m ≤ retries + 1
      · rw [if_pos hm] at hr; cases hr; rfl
      · rw [if_neg hm] at hr
        exact ih m (retries + 1) r hr

theorem pnGo_isSome (check : Nat → Except (List Char) Bool)
    (number : List Char) :
    ∀ (fuel maxRetries retries : Nat), maxRetries - retries = fuel →
      retries < maxRetries →
      ∃ r, pnGo check maxRetries number retries fuel = some r := by
  intro fuel
  induction fuel with
  | zero => intro m retries hf h; omega
  | succ n ih =>
    intro m retries hf h
    rw [pnGo]
    cases hc : check retries with
    | ok b => exact ⟨_, rfl⟩
    | error e =>
      dsimp only
      by_cases hm : m ≤ retries + 1
      · rw [if_pos hm]; exact ⟨_, rfl⟩
      · rw [if_neg hm]
        exact ih m (retries + 1) (by omega) (by omega)

theorem pnGo_throws_fields (check : Nat → Except (List Char) Bool)
    (number : List Char) (hthrow : ∀ k, ∃ e, check k = Except.error e) :
    ∀ (fuel maxRetries retries : Nat) (r : OptResult),
      pnGo check maxRetries number retries fuel = some r →
      r.success = false ∧ r.errMsg.isSome = true := by
  intro fuel
  induction fuel with
  | zero => intro m retries r hr; cases hr
  | succ n ih =>
    intro m retries r hr
    rw [pnGo] at hr
    obtain ⟨e, he⟩ := hthrow retries
    simp only [he] at hr
    by_cases hm : m ≤ retries + 1
    · rw [if_pos hm] at hr; cases hr; exact ⟨rfl, rfl⟩
    · rw [if_neg hm] at hr
      exact ih m (retries + 1) r hr

theorem processNumberGo_none (check : Nat → Except (List Char) Bool)
    (number : List Char) (maxRetries retries : Nat)
    (h : ¬ retries < maxRetries) :
    processNumberGo check maxRetries number retries = none := by
  unfold processNumberGo
  rw [show maxRetries - retries = 0 by omega]
  rfl

theorem processNumberGo_isSome (check : Nat → Except (List Char) Bool)
    (number : List Char) (maxRetries retries : Nat)
    (h : retries < maxRetries) :
    ∃ r, processNumberGo check maxRetries number retries = some r :=
  pnGo_isSome check number (maxRetries - retries) maxRetries retries rfl h

theorem processNumberGo_number (check : Nat → Except (List Char) Bool)
    (number : List Char) (maxRetries retries : Nat) (r : OptResult)
    (hr : processNumberGo check maxRetries number retries = some r) :
    r.number = number :=
  pnGo_number check number (maxRetries - retries) maxRetries retries r hr

theorem processNumberGo_throws_fields (check : Nat → Except (List Char) Bool)
    (number : List Char) (hthrow : ∀ k, ∃ e, check k = Except.error e)
    (maxRetries retries : Nat) (r : OptResult)
    (hr : processNumberGo check maxRetries number retries = some r) :
    r.success = false ∧ r.errMsg.isSome = true :=
  pnGo_throws_fields check number hthrow (maxRetries - retries)
    maxRetries retries r hr

theorem paGo_le (check : Nat → Except (List Char) Bool) :
    ∀ (fuel maxRetries retries : Nat),
      paGo check maxRetries retries fuel ≤ fuel := by
  intro fuel
  induction fuel with
  | zero => intro m retries; exact Nat.le_refl 0
  | succ n ih =>
    intro m retries
    rw [paGo]
    cases hc : check retries with
    | ok b => dsimp only; omega
    | error e =>
      dsimp only
      by_cases hm : m ≤ retries + 1
      · rw [if_pos hm]; omega
      · rw [if_neg hm]
        have := ih m (retries + 1)
        omega

theorem processAttemptsGo_le (check : Nat → Except (List Char) Bool)
    (maxRetries retries : Nat) :
    processAttemptsGo check maxRetries retries ≤ maxRetries - retries :=
  paGo_le check (maxRetries - retries) maxRetries retries

theorem paGo_throws (check : Nat → Except (List Char) Bool)
    (hthrow : ∀ k, ∃ e, check k = Except.error e) :
    ∀ (fuel maxRetries retries : Nat), maxRetries - retries = fuel →
      paGo check maxRetries retries fuel = fuel := by
  intro fuel
  induction fuel with
  | zero => intro m retries hf; rfl
  | succ n ih =>
    intro m retries hf
    obtain ⟨e, he⟩ := hthrow retries
    rw [paGo]
    simp only [he]
    by_cases hm : m ≤ retries + 1
    · rw [if_pos hm]; omega
    · rw [if_neg hm]
      have := ih m (retries + 1) (by omega)
      omega

theorem processAttemptsGo_throws (check : Nat → Except (List Char) Bool)
    (hthrow : ∀ k, ∃ e, check k = Except.error e)
    (maxRetries retries : Nat) :
    processAttemptsGo check maxRetries retries = maxRetries - retries :=
  paGo_throws check hthrow (maxRetries - retries) maxRetries retries rfl

/-- The per-run invariant behind "no item lost, none duplicated": the
remaining queue, the outstanding tasks and the recorded result numbers
together are a permutation of the input, and every queued item is truthy. -/
def c1Inv (items : List (List Char)) (s : OptState) : Prop :=
  (∀ v ∈ s.workQueue, jsTruthy v = true)
    ∧ ((s.workQueue ++ (s.inFlight ++ s.results.map OptResult.number)).Perm
        items)

theorem c1Inv_step (oracle : List Char → Nat → Except (List Char) Bool)
    (maxRetries : Nat) (hm : 1 ≤ maxRetries) (c : SchedChoice)
    {items : List (List Char)} {s : OptState} (h : c1Inv items s) :
    c1Inv items (stepOpt oracle maxRetries c s) := by
  obtain ⟨ht, hp⟩ := h
  cases c with
  | take =>
    cases hq : s.workQueue with
    | nil =>
      have hstep : stepOpt oracle maxRetries SchedChoice.take s = s := by
        simp [stepOpt, hq]
      rw [hstep]
      exact ⟨ht, hp⟩
    | cons v rest =>
      have htr : jsTruthy v = true :=
        ht v (by rw [hq]; exact List.mem_cons_self v rest)
      have hstep : stepOpt oracle maxRetries SchedChoice.take s =
          { workQueue := rest, procSet := setAdd v s.procSet,
            inFlight := v :: s.inFlight, results := s.results } := by
        simp [stepOpt, hq, htr]
      rw [hq] at hp
      rw [hstep]
      constructor
      · intro w hw
        exact ht w (by rw [hq]; exact List.mem_cons_of_mem v hw)
      · exact List.Perm.trans List.perm_middle hp
  | complete v =>
    by_cases hv : v ∈ s.inFlight
    · obtain ⟨r, hr⟩ := processNumberGo_isSome (oracle v) v maxRetries 0
        (by omega)
      have hrn : r.number = v :=
        processNumberGo_number (oracle v) v maxRetries 0 r hr
      have hstep : stepOpt oracle maxRetries (SchedChoice.complete v) s =
          { workQueue := s.workQueue, procSet := eraseOne v s.procSet,
            inFlight := eraseOne v s.inFlight, results := s.results ++ [r] } := by
        simp [stepOpt, hv, hr]
      rw [hstep]
      constructor
      · intro w hw
        exact ht w hw
      · dsimp only
        rw [List.map_append, List.map_cons, List.map_nil, hrn]
        refine List.Perm.trans (List.Perm.append_left s.workQueue ?_) hp
        have h1 : (eraseOne v s.inFlight ++
              (s.results.map OptResult.number ++ [v])).Perm
            (eraseOne v s.inFlight ++ (v :: s.results.map OptResult.number)) :=
          List.Perm.append_left _ (List.perm_append_singleton v _)
        have h2 : (eraseOne v s.inFlight ++
              (v :: s.results.map OptResult.number)).Perm
            (v :: (eraseOne v s.inFlight ++ s.results.map OptResult.number)) :=
          List.perm_middle
        have h3 : (v :: (eraseOne v s.inFlight ++
              s.results.map OptResult.number)).Perm
            (s.inFlight ++ s.results.map OptResult.number) := by
          simpa using List.Perm.append_right (s.results.map OptResult.number)
            (perm_cons_eraseOne hv).symm
        exact (h1.trans h2).trans h3
    · have hstep : stepOpt oracle maxRetries (SchedChoice.complete v) s = s := by
        simp [stepOpt, hv]
      rw [hstep]
      exact ⟨ht, hp⟩

theorem c1Inv_run (oracle : List Char → Nat → Except (List Char) Bool)
    (maxRetries : Nat) (hm : 1 ≤ maxRetries) {items : List (List Char)} :
    ∀ (sched : List SchedChoice) (s : OptState), c1Inv items s →
      c1Inv items (runOpt oracle maxRetries sched s) := by
  intro sched
  induction sched with
  | nil => intro s h; exact h
  | cons c cs ih =>
    intro s h
    exact ih _ (c1Inv_step oracle maxRetries hm c h)

theorem resOk_step (oracle : List Char → Nat → Except (List Char) Bool)
    (maxRetries : Nat) (c : SchedChoice) {s : OptState}
    (h : ∀ r ∈ s.results,
      processNumberGo (oracle r.number) maxRetries r.number 0 = some r) :
    ∀ r ∈ (stepOpt oracle maxRetries c s).results,
      processNumberGo (oracle r.number) maxRetries r.number 0 = some r := by
  cases c with
  | take =>
    cases hq : s.workQueue with
    | nil =>
      have hstep : stepOpt oracle maxRetries SchedChoice.take s = s := by
        simp [stepOpt, hq]
      rw [hstep]
      exact h
    | cons v rest =>
      by_cases htr : jsTruthy v
      · have hstep : stepOpt oracle maxRetries SchedChoice.take s =
            { workQueue := rest, procSet := setAdd v s.procSet,
              inFlight := v :: s.inFlight, results := s.results } := by
          simp [stepOpt, hq, htr]
        rw [hstep]
        exact h
      · have hstep : stepOpt oracle maxRetries SchedChoice.take s =
            { s with workQueue := rest } := by
          simp [stepOpt, hq, htr]
        rw [hstep]
        exact h
  | complete v =>
    by_cases hv : v ∈ s.inFlight
    · cases hres : processNumberGo (oracle v) maxRetries v 0 with
      | none =>
        have hstep : stepOpt oracle maxRetries (SchedChoice.complete v) s =
            { s with inFlight := eraseOne v s.inFlight } := by
          simp [stepOpt, hv, hres]
        rw [hstep]
        exact h
      | some r0 =>
        have hrn : r0.number = v :=
          processNumberGo_number (oracle v) v maxRetries 0 r0 hres
        have hstep : stepOpt oracle maxRetries (SchedChoice.complete v) s =
            { workQueue := s.workQueue, procSet := eraseOne v s.procSet,
              inFlight := eraseOne v s.inFlight,
              results := s.results ++ [r0] } := by
          simp [stepOpt, hv, hres]
        rw [hstep]
        intro r hr
        rcases List.mem_append.mp hr with hold | hnew
        · exact h r hold
        · have heq : r = r0 := by simpa using hnew
          subst heq
          rw [hrn]
          exact hres
    · have hstep : stepOpt oracle maxRetries (SchedChoice.complete v) s = s := by
        simp [stepOpt, hv]
      rw [hstep]
      exact h

theorem resOk_run (oracle : List Char → Nat → Except (List Char) Bool)
    (maxRetries : Nat) :
    ∀ (sched : List SchedChoice) (s : OptState),
      (∀ r ∈ s.results,
        processNumberGo (oracle r.number) maxRetries r.number 0 = some r) →
      ∀ r ∈ (runOpt oracle maxRetries sched s).results,
        processNumberGo (oracle r.number) maxRetries r.number 0 = some r := by
  intro sched
  induction sched with
  | nil => intro s h; exact h
  | cons c cs ih =>
    intro s h
    exact ih _ (resOk_step oracle maxRetries c h)

/-- With `maxRetries = 0` nothing ever leaves the `processing` Set: a
truthy item still queued or any member of the Set keeps every worker's
`while (workQueue.length > 0 || processing.size > 0)` loop alive. -/
def stalledOpt (s : OptState) : Prop :=
  (∃ v ∈ s.workQueue, jsTruthy v = true) ∨ s.procSet ≠ []

theorem setAdd_ne_nil (v : List Char) (l : List (List Char)) :
    setAdd v l ≠ [] := by
  unfold setAdd
  split
  · intro h
    subst h
    simp_all
  · simp

theorem stalled_step (oracle : List Char → Nat → Except (List Char) Bool)
    (c : SchedChoice) {s : OptState} (h : stalledOpt s) :
    stalledOpt (stepOpt oracle 0 c s) := by
  cases c with
  | take =>
    cases hq : s.workQueue with
    | nil =>
      have hstep : stepOpt oracle 0 SchedChoice.take s = s := by
        simp [stepOpt, hq]
      rw [hstep]
      exact h
    | cons v rest =>
      by_cases htr : jsTruthy v
      · have hstep : stepOpt oracle 0 SchedChoice.take s =
            { workQueue := rest, procSet := setAdd v s.procSet,
              inFlight := v :: s.inFlight, results := s.results } := by
          simp [stepOpt, hq, htr]
        rw [hstep]
        exact Or.inr (setAdd_ne_nil v s.procSet)
      · have hstep : stepOpt oracle 0 SchedChoice.take s =
            { s with workQueue := rest } := by
          simp [stepOpt, hq, htr]
        rw [hstep]
        rcases h with ⟨w, hw, hwt⟩ | hne
        · rw [hq] at hw
          rcases List.mem_cons.mp hw with h1 | h1
          · subst h1; exact absurd hwt (by simpa using htr)
          · exact Or.inl ⟨w, h1, hwt⟩
        · exact Or.inr hne
  | complete v =>
    by_cases hv : v ∈ s.inFlight
    · have hres : processNumberGo (oracle v) 0 v 0 = none :=
        processNumberGo_none _ _ 0 0 (by omega)
      have hstep : stepOpt oracle 0 (SchedChoice.complete v) s =
          { s with inFlight := eraseOne v s.inFlight } := by
        simp [stepOpt, hv, hres]
      rw [hstep]
      rcases h with ⟨w, hw, hwt⟩ | hne
      · exact Or.inl ⟨w, hw, hwt⟩
      · exact Or.inr hne
    · have hstep : stepOpt oracle 0 (SchedChoice.complete v) s = s := by
        simp [stepOpt, hv]
      rw [hstep]
      exact h

theorem stalled_run (oracle : List Char → Nat → Except (List Char) Bool) :
    ∀ (sched : List SchedChoice) (s : OptState), stalledOpt s →
      stalledOpt (runOpt oracle 0 sched s) := by
  intro sched
  induction sched with
  | nil => intro s h; exact h
  | cons c cs ih => intro s h; exact ih _ (stalled_step oracle c h)

theorem stalled_not_complete {s : OptState} (h : stalledOpt s) :
    ¬ isCompleteOpt s := by
  rintro ⟨hq, hps, _hf⟩
  rcases h with ⟨w, hw, _hwt⟩ | hne
  · rw [hq] at hw; cases hw
  · exact hne hps

theorem runOpt_emptyState (oracle : List Char → Nat → Except (List Char) Bool)
    (maxRetries : Nat) :
    ∀ sched : List SchedChoice,
      runOpt oracle maxRetries sched ⟨[], [], [], []⟩ = ⟨[], [], [], []⟩ := by
  intro sched
  induction sched with
  | nil => rfl
  | cons c cs ih =>
    have hstep : stepOpt oracle maxRetries c ⟨[], [], [], []⟩ =
        ⟨[], [], [], []⟩ := by
      cases c with
      | take => rfl
      | complete v => simp [stepOpt]
    rw [runOpt, hstep, ih]

/-- A transport that always answers "registered". -/
def oraAllOk : List Char → Nat → Except (List Char) Bool :=
  fun _v _k => Except.ok true

/-- C1 counterexample: `sessionWorker` shifts an item and then guards with
`if (number)`, so the falsy item `""` is removed from the queue without
ever being processed: the scheduler reaches completion with an empty
results collection — the enqueued item got no terminal ValidationResult,
contradicting the claim for arbitrary finite input lists. -/
theorem c1_cex_falsy_item_dropped :
    isCompleteOpt (runOpt oraAllOk 2 [SchedChoice.take] (initOpt [[]]))
      ∧ (runOpt oraAllOk 2 [SchedChoice.take] (initOpt [[]])).results = [] := by
  exact ⟨by decide, rfl⟩

/-- The conclusion of the amended C1 claim. -/
def c1Post (oracle : List Char → Nat → Except (List Char) Bool)
    (maxRetries : Nat) (items : List (List Char))
    (sched : List SchedChoice) : Prop :=
  ((runOpt oracle maxRetries sched (initOpt items)).results.map
      OptResult.number).Perm items
    ∧ (∀ check retries, processAttemptsGo check maxRetries retries ≤ maxRetries)
    ∧ (∀ v ∈ items, (∀ k, ∃ e, oracle v k = Except.error e) →
        ∃ r ∈ (runOpt oracle maxRetries sched (initOpt items)).results,
          r.number = v ∧ r.success = false ∧ r.errMsg.isSome = true
            ∧ processAttemptsGo (oracle v) maxRetries 0 = maxRetries)

/-- C1 (amended): for every input list of truthy (non-empty) items, every
transport behaviour, every retry bound and every interleaving of the
session workers, once `validateBatch` reports completion the recorded
result numbers are a permutation of the input — no item lost, none
duplicated — each item is attempted at most `maxRetries` times, and an
item whose checks keep throwing ends with exactly `maxRetries` attempts
and a single terminal `status: 'error'` result.  (The truthiness
restriction is forced by the falsy-item counterexample.) -/
theorem c1_exactly_one_amended
    (oracle : List Char → Nat → Except (List Char) Bool) (maxRetries : Nat)
    (items : List (List Char)) (sched : List SchedChoice)
    (htruthy : ∀ v ∈ items, jsTruthy v = true)
    (hdone : isCompleteOpt (runOpt oracle maxRetries sched (initOpt items))) :
    c1Post oracle maxRetries items sched := by
  rcases Nat.eq_zero_or_pos maxRetries with hz | hpos
  · subst hz
    cases items with
    | nil =>
      have hrun := runOpt_emptyState oracle 0 sched
      refine ⟨?_, ?_, ?_⟩
      · rw [show initOpt [] = (⟨[], [], [], []⟩ : OptState) from rfl, hrun]
        exact List.Perm.refl _
      · intro check retries
        have := processAttemptsGo_le check 0 retries
        omega
      · intro v hv
        cases hv
    | cons w ws =>
      exfalso
      have hst : stalledOpt (initOpt (w :: ws)) :=
        Or.inl ⟨w, List.mem_cons_self w ws, htruthy w (List.mem_cons_self w ws)⟩
      exact stalled_not_complete (stalled_run oracle sched _ hst) hdone
  · have hinv : c1Inv items (runOpt oracle maxRetries sched (initOpt items)) :=
      c1Inv_run oracle maxRetries hpos sched (initOpt items)
        ⟨htruthy, by simp [initOpt]⟩
    have hres := resOk_run oracle maxRetries sched (initOpt items)
      (by intro r hr; simp [initOpt] at hr)
    obtain ⟨hq, hps, hf⟩ := hdone
    have hperm : ((runOpt oracle maxRetries sched
        (initOpt items)).results.map OptResult.number).Perm items := by
      have hp2 := hinv.2
      rw [hq, hf] at hp2
      simpa using hp2
    refine ⟨hperm, ?_, ?_⟩
    · intro check retries
      have := processAttemptsGo_le check maxRetries retries
      omega
    · intro v hv hthrow
      have hvmem : v ∈ (runOpt oracle maxRetries sched
          (initOpt items)).results.map OptResult.number :=
        hperm.mem_iff.mpr hv
      obtain ⟨r, hr, hrn⟩ := List.mem_map.mp hvmem
      have hok := hres r hr
      rw [hrn] at hok
      have hfields := processNumberGo_throws_fields (oracle v) v hthrow
        maxRetries 0 r hok
      refine ⟨r, hr, hrn, hfields.1, hfields.2, ?_⟩
      have := processAttemptsGo_throws (oracle v) hthrow maxRetries 0
      omega

/-- Witness for the amended C1 theorem: one truthy item `"7"`, two
retries, the schedule take-then-complete — the run completes and the
conclusion holds. -/
theorem c1_exactly_one_amended_witness :
    c1Post oraAllOk 2 [['7']] [SchedChoice.take, SchedChoice.complete ['7']] :=
  c1_exactly_one_amended oraAllOk 2 [['7']]
    [SchedChoice.take, SchedChoice.complete ['7']] (by decide) (by decide)

/-- C10: constructing the validator with `maxRetries: 0` really stores 0
(the trailing `...options` spread overrides the `|| 2` default), in which
case `processNumber` performs no transport call, returns `undefined`
without recording any result and without deleting the item from the
`processing` Set, so once any truthy item has been enqueued no schedule
ever brings the worker loops' condition to false — `validateBatch` never
completes, and exactly-one-result-per-item needs `maxRetries ≥ 1`. -/
theorem c10_zero_retries_never_terminates :
    constructedMaxRetries (some 0) = 0
      ∧ (∀ check number, processNumberGo check 0 number 0 = none)
      ∧ (∀ check, processAttemptsGo check 0 0 = 0)
      ∧ (∀ oracle s (v : List Char), v ∈ s.inFlight →
          stepOpt oracle 0 (SchedChoice.complete v) s =
            { s with inFlight := eraseOne v s.inFlight })
      ∧ (∀ oracle sched items, (∃ v ∈ items, jsTruthy v = true) →
          ¬ isCompleteOpt (runOpt oracle 0 sched (initOpt items))) := by
  refine ⟨rfl, ?_, ?_, ?_, ?_⟩
  · intro check number
    exact processNumberGo_none check number 0 0 (by omega)
  · intro check
    rfl
  · intro oracle s v hv
    have hres : processNumberGo (oracle v) 0 v 0 = none :=
      processNumberGo_none _ _ 0 0 (by omega)
    simp [stepOpt, hv, hres]
  · intro oracle sched items ⟨v, hv, hvt⟩
    exact stalled_not_complete
      (stalled_run oracle sched _ (Or.inl ⟨v, hv, hvt⟩))

/-- Witness for C10: with one truthy item and the empty schedule the run
is not complete. -/
theorem c10_zero_retries_never_terminates_witness :
    ¬ isCompleteOpt (runOpt oraAllOk 0 [] (initOpt [['7']])) :=
  c10_zero_retries_never_terminates.2.2.2.2 oraAllOk [] [['7']]
    ⟨['7'], List.mem_cons_self ['7'] [], by decide⟩

/-! ## Single-session batch with progress checkpointing (part_000)

Source: `src/unnamed/part_000`.
`loadProgress` (27-36) returns the stored checkpoint or
`{ lastIndex: 0, totalChecked: 0, startTime: now }`.
`validateBatch` (170-208) loops `for (i = startIndex; i < numbers.length)`,
validating each item, setting `progress.lastIndex = i + 1`,
`progress.totalChecked++`, and whenever `(i + 1) % 10 === 0` it saves the
progress file and appends `results.slice(-10)` to the result sink.
`validateNumber` (113-167) is the catch-all variant with profile picture
and about lookups.  Per-index transport behaviour is a `P0Oracle`. -/

/-- The fields of part_000's result object that the claims mention. -/
structure P0Result where
  number : List Char
  whatsappId : List Char
  registered : Bool
  hasProfilePic : Bool
  about : List Char
  success : Bool
  errMsg : Option (List Char)
deriving DecidableEq, Repr

/-- `WhatsAppValidator.validateNumber` (lines 113-167): the registration
check, and on success the profile-picture and contact lookups, each with
its own catch. -/
def validateNumberP0 (check : Except (List Char) Bool)
    (pic : Except (List Char) (Option (List Char)))
    (contactAbout : Except (List Char) (Option (List Char)))
    (number : List Char) : P0Result :=
  match check with
  | Except.error e => ⟨number, [], false, false, [], false, some e⟩
  | Except.ok b =>
    let p : Bool := if b then
        (match pic with
         | Except.ok u => u.isSome
         | Except.error _e => false)
      else false
    let ab : List Char := if b then
        (match contactAbout with
         | Except.ok a => a.getD []
         | Except.error _e => [])
      else []
    ⟨number, waIdP0 number, b, p, ab, true, none⟩

/-- Per-index transport behaviour for a part_000 run. -/
structure P0Oracle where
  check : Nat → Except (List Char) Bool
  pic : Nat → Except (List Char) (Option (List Char))
  about : Nat → Except (List Char) (Option (List Char))

/-- The oracle as seen by a run whose indices start `k` later. -/
def shiftP0 (k : Nat) (o : P0Oracle) : P0Oracle :=
  ⟨fun j => o.check (k + j), fun j => o.pic (k + j), fun j => o.about (k + j)⟩

/-- `{ lastIndex, totalChecked, startTime }`. -/
structure Progress where
  lastIndex : Nat
  totalChecked : Nat
  startTime : List Char
deriving DecidableEq, Repr

/-- One `saveProgress()` plus flush of `results.slice(-10)`. -/
structure SaveEvent where
  prog : Progress
  flushed : List P0Result
deriving DecidableEq, Repr

/-- JavaScript `l.slice(-n)`: the last `min n l.length` elements. -/
def lastN (n : Nat) (l : List P0Result) : List P0Result :=
  l.drop (l.length - n)

/-- The observable outcome of a `validateBatch` run: the results pushed
this run, the final progress record, and every save/flush event. -/
structure BatchOut where
  results : List P0Result
  prog : Progress
  saves : List SaveEvent
deriving DecidableEq, Repr

/-- The loop of `validateBatch` (lines 175-205): `i` is the absolute
index of the head of `rest`. -/
def vbGo (ora : P0Oracle) : Nat → List (List Char) → List P0Result →
    Progress → List SaveEvent → BatchOut
  | _i, [], results, prog, saves => ⟨results, prog, saves⟩
  | i, x :: xs, results, prog, saves =>
    let r := validateNumberP0 (ora.check i) (ora.pic i) (ora.about i) x
    let results2 := results ++ [r]
    let prog2 : Progress := ⟨i + 1, prog.totalChecked + 1, prog.startTime⟩
    let saves2 := if (i + 1) % 10 = 0 then saves ++ [⟨prog2, lastN 10 results2⟩]
                  else saves
    vbGo ora (i + 1) xs results2 prog2 saves2

/-- `validateBatch(numbers, startIndex)`: the loop runs over
`numbers[startIndex..]`. -/
def validateBatchP0 (ora : P0Oracle) (numbers : List (List Char))
    (startIndex : Nat) (prog : Progress) : BatchOut :=
  vbGo ora startIndex (numbers.drop startIndex) [] prog []

/-- `loadProgress` (lines 27-36): the stored checkpoint, or the fresh
default. -/
def loadProgress (stored : Option Progress) (nowIso : List Char) : Progress :=
  match stored with
  | some p => p
  | none => ⟨0, 0, nowIso⟩

/-- An oracle whose every check succeeds with "registered". -/
def oraP0AllOk : P0Oracle :=
  ⟨fun _j => Except.ok true, fun _j => Except.ok none, fun _j => Except.ok none⟩

/-- Sixteen input numbers. -/
def numsC6 : List (List Char) := List.replicate 16 "0790000000".toList

/-- The C6 counterexample run: resume from a checkpoint with
`lastIndex = 5` over 16 numbers. -/
def c6CexOut : BatchOut :=
  validateBatchP0 oraP0AllOk numsC6
    (loadProgress (some ⟨5, 5, "t0".toList⟩) "t1".toList).lastIndex
    (loadProgress (some ⟨5, 5, "t0".toList⟩) "t1".toList)

/-- C6 counterexample: the save condition is `(i + 1) % 10 === 0` on the
absolute index, not on the number of items completed this run — resuming
at `lastIndex = 5` over 16 numbers completes 11 items but saves exactly
once, at absolute index 10 after only 5 completed items, flushing 5 (not
10) results; after 10 completed items nothing is saved.  This contradicts
"after every 10 completed items the checkpoint is persisted and the last
10 results are flushed". -/
theorem c6_cex_resumed_cadence :
    c6CexOut.results.length = 11
      ∧ c6CexOut.saves.map (fun ev => (ev.prog.lastIndex, ev.flushed.length)) =
          [(10, 5)] := by
  exact ⟨rfl, rfl⟩

theorem vbGo_saves_map (ora : P0Oracle) :
    ∀ (rest : List (List Char)) (i : Nat) (results : List P0Result)
      (prog : Progress) (saves : List SaveEvent),
      (vbGo ora i rest results prog saves).saves.map
          (fun ev => ev.prog.lastIndex) =
        saves.map (fun ev => ev.prog.lastIndex) ++
          (List.range' (i + 1) rest.length).filter (fun j => j % 10 = 0) := by
  intro rest
  induction rest with
  | nil => intro i results prog saves; simp [vbGo]
  | cons x xs ih =>
    intro i results prog saves
    rw [show (x :: xs).length = xs.length + 1 from rfl, List.range'_succ]
    rw [vbGo]
    by_cases hsave : (i + 1) % 10 = 0
    · rw [if_pos hsave, ih]
      simp [hsave]
    · rw [if_neg hsave, ih]
      simp [hsave]

theorem vbGo_results_shift (k : Nat) (ora : P0Oracle) :
    ∀ (rest : List (List Char)) (i : Nat) (results : List P0Result)
      (prog prog' : Progress) (saves saves' : List SaveEvent),
      (vbGo ora (k + i) rest results prog saves).results =
        (vbGo (shiftP0 k ora) i rest results prog' saves').results := by
  intro rest
  induction rest with
  | nil => intro i results prog prog' saves saves'; rfl
  | cons x xs ih =>
    intro i results prog prog' saves saves'
    rw [vbGo, vbGo]
    exact ih (i + 1) _ _ _ _ _

theorem lastN_length (n : Nat) (l : List P0Result) :
    (lastN n l).length = min n l.length := by
  simp [lastN]
  omega

theorem vbGo_flushed (ora : P0Oracle) (k : Nat) :
    ∀ (rest : List (List Char)) (i : Nat) (results : List P0Result)
      (prog : Progress) (saves : List SaveEvent),
      k ≤ i → results.length = i - k →
      (∀ ev ∈ saves, ev.flushed.length = min 10 (ev.prog.lastIndex - k)) →
      ∀ ev ∈ (vbGo ora i rest results prog saves).saves,
        ev.flushed.length = min 10 (ev.prog.lastIndex - k) := by
  intro rest
  induction rest with
  | nil =>
    intro i results prog saves _hk _hlen hsaves
    exact hsaves
  | cons x xs ih =>
    intro i results prog saves hk hlen hsaves
    rw [vbGo]
    by_cases hsave : (i + 1) % 10 = 0
    · rw [if_pos hsave]
      refine ih (i + 1) _ _ _ (by omega) (by simp [hlen]; omega) ?_
      intro ev hev
      rcases List.mem_append.mp hev with hold | hnew
      · exact hsaves ev hold
      · have heq : ev = ⟨⟨i + 1, prog.totalChecked + 1, prog.startTime⟩,
            lastN 10 (results ++
              [validateNumberP0 (ora.check i) (ora.pic i) (ora.about i) x])⟩ := by
          simpa using hnew
        subst heq
        rw [lastN_length]
        simp [hlen]
        omega
    · rw [if_neg hsave]
      exact ih (i + 1) _ _ _ (by omega) (by simp [hlen]; omega) hsaves

theorem vbGo_oracle_agree (ora ora2 : P0Oracle) :
    ∀ (rest : List (List Char)) (i : Nat) (results : List P0Result)
      (prog : Progress) (saves : List SaveEvent),
      (∀ j, i ≤ j → ora.check j = ora2.check j ∧ ora.pic j = ora2.pic j
        ∧ ora.about j = ora2.about j) →
      vbGo ora i rest results prog saves =
        vbGo ora2 i rest results prog saves := by
  intro rest
  induction rest with
  | nil => intro i results prog saves _h; rfl
  | cons x xs ih =>
    intro i results prog saves h
    rw [vbGo, vbGo]
    obtain ⟨hc, hp, ha⟩ := h i (Nat.le_refl i)
    rw [hc, hp, ha]
    exact ih (i + 1) _ _ _ (fun j hj => h j (by omega))

/-- The count of verified results, as in the aggregate statistics. -/
def p0VerifiedCount (l : List P0Result) : Nat :=
  (l.filter (fun r => r.registered)).length

/-- The count of error results, as in the aggregate statistics. -/
def p0ErrorCount (l : List P0Result) : Nat :=
  (l.filter (fun r => !r.success)).length

/-- C6 (amended): a checkpoint is persisted exactly when the absolute
index `i + 1` is a multiple of 10 — in a fresh run that is after every 10
completed items and each flush carries exactly the last 10 results, but a
resumed run keeps the absolute cadence, so its first save can come after
fewer than 10 completed items with fewer than 10 results flushed.
Resuming from `lastIndex = k` processes only items at index ≥ k: the run
equals a from-scratch run on the remaining slice (so its aggregate counts
match), and its outcome is independent of the transport's behaviour below
index `k`. -/
theorem c6_checkpoint_resume_amended :
    (∀ ora nums k p,
        (validateBatchP0 ora nums k p).saves.map (fun ev => ev.prog.lastIndex) =
          (List.range' (k + 1) (nums.length - k)).filter (fun j => j % 10 = 0))
      ∧ (∀ ora nums p, ∀ ev ∈ (validateBatchP0 ora nums 0 p).saves,
          ev.flushed.length = 10)
      ∧ (∀ ora nums k p p',
          (validateBatchP0 ora nums k p).results =
            (validateBatchP0 (shiftP0 k ora) (nums.drop k) 0 p').results)
      ∧ (∀ ora nums k p p',
          p0VerifiedCount (validateBatchP0 ora nums k p).results =
              p0VerifiedCount
                (validateBatchP0 (shiftP0 k ora) (nums.drop k) 0 p').results
            ∧ p0ErrorCount (validateBatchP0 ora nums k p).results =
              p0ErrorCount
                (validateBatchP0 (shiftP0 k ora) (nums.drop k) 0 p').results)
      ∧ (∀ ora ora2 nums k p,
          (∀ j, k ≤ j → ora.check j = ora2.check j ∧ ora.pic j = ora2.pic j
            ∧ ora.about j = ora2.about j) →
          validateBatchP0 ora nums k p = validateBatchP0 ora2 nums k p) := by
  have hshift : ∀ ora nums k (p p' : Progress),
      (validateBatchP0 ora nums k p).results =
        (validateBatchP0 (shiftP0 k ora) (nums.drop k) 0 p').results := by
    intro ora nums k p p'
    unfold validateBatchP0
    rw [List.drop_zero]
    exact vbGo_results_shift k ora (nums.drop k) 0 [] p p' [] []
  refine ⟨?_, ?_, hshift, ?_, ?_⟩
  · intro ora nums k p
    unfold validateBatchP0
    rw [vbGo_saves_map]
    simp [List.length_drop]
  · intro ora nums p ev hev
    have hflush := vbGo_flushed ora 0 (nums.drop 0) 0 [] p [] (Nat.le_refl 0)
      rfl (by intro ev2 hev2; cases hev2) ev hev
    have hmem : ev.prog.lastIndex ∈
        (validateBatchP0 ora nums 0 p).saves.map (fun e2 => e2.prog.lastIndex) :=
      List.mem_map_of_mem _ hev
    rw [show (validateBatchP0 ora nums 0 p).saves.map
          (fun e2 => e2.prog.lastIndex) =
        (List.range' (0 + 1) (nums.length - 0)).filter
          (fun j => j % 10 = 0) from by
        unfold validateBatchP0
        rw [vbGo_saves_map]
        simp [List.length_drop]] at hmem
    have hmod := (List.mem_filter.mp hmem).2
    have hrange := (List.mem_filter.mp hmem).1
    have hge : 1 ≤ ev.prog.lastIndex := by
      have := List.mem_range'_1.mp hrange
      omega
    have hmod10 : ev.prog.lastIndex % 10 = 0 := by simpa using hmod
    rw [hflush]
    omega
  · intro ora nums k p p'
    constructor
    · unfold p0VerifiedCount
      rw [hshift ora nums k p p']
    · unfold p0ErrorCount
      rw [hshift ora nums k p p']
  · intro ora ora2 nums k p hagree
    unfold validateBatchP0
    exact vbGo_oracle_agree ora ora2 (nums.drop k) k [] p []
      (fun j hj => hagree j hj)

/-- Witness for the amended C6 theorem: the resumed run at `lastIndex = 5`
over the sixteen numbers has the same results as the from-scratch run on
the remaining eleven, and a fresh run really does flush 10 results at its
first save. -/
theorem c6_checkpoint_resume_amended_witness :
    ((validateBatchP0 oraP0AllOk numsC6 5 ⟨5, 5, "t0".toList⟩).results =
        (validateBatchP0 (shiftP0 5 oraP0AllOk) (numsC6.drop 5) 0
          ⟨0, 0, "t1".toList⟩).results)
      ∧ (∃ ev ∈ (validateBatchP0 oraP0AllOk numsC6 0
            ⟨0, 0, "t0".toList⟩).saves, ev.flushed.length = 10) := by
  refine ⟨c6_checkpoint_resume_amended.2.2.1 oraP0AllOk numsC6 5
    ⟨5, 5, "t0".toList⟩ ⟨0, 0, "t1".toList⟩, ?_⟩
  obtain ⟨ev, hev⟩ : ∃ ev, ev ∈ (validateBatchP0 oraP0AllOk numsC6 0
      ⟨0, 0, "t0".toList⟩).saves := by
    cases hs : (validateBatchP0 oraP0AllOk numsC6 0 ⟨0, 0, "t0".toList⟩).saves
      with
    | nil =>
      exfalso
      have hmap := c6_checkpoint_resume_amended.1 oraP0AllOk numsC6 0
        ⟨0, 0, "t0".toList⟩
      rw [hs] at hmap
      simp only [List.map_nil] at hmap
      have h10 : (10 : Nat) ∈ (List.range' (0 + 1) (numsC6.length - 0)).filter
          (fun j => j % 10 = 0) := by decide
      rw [← hmap] at h10
      cases h10
    | cons a l => exact ⟨a, List.mem_cons_self a l⟩
  exact ⟨ev, hev, c6_checkpoint_resume_amended.2.1 oraP0AllOk numsC6
    ⟨0, 0, "t0".toList⟩ ev hev⟩

/-! ## Delay policy (SafeWhatsAppValidator.validateSessionChunk)

Source: `src/unnamed/part_003` lines 220-264.  Inside the loop, with
`processed = i + 1`:

    const delayVariation = this.options.checkDelay * (0.8 + Math.random() * 0.4);
    ...
    if (i < numbers.length - 1) await this.delay(delayVariation);
    if (processed % this.options.batchSize === 0 && i < numbers.length - 1) {
        const breakTime = this.options.breakDuration + Math.random() * 2000;
        await this.delay(breakTime);
    }
    if (processed % 200 === 0 && i < numbers.length - 1) await this.delay(10000);

`Math.random()` draws are the streams `rJit`/`rBrk` (values in `[0, 1)`),
modelled as exact rationals: `0.8 = 4/5`, `0.4 = 2/5`. -/

structure SafeOpts where
  checkDelay : ℚ
  batchSize : Nat
  breakDuration : ℚ
deriving DecidableEq

/-- The constructor defaults of `SafeWhatsAppValidator` (lines 29-38):
`checkDelay: 600`, `batchSize: 100`, `breakDuration: 5000`. -/
def defaultSafeOpts : SafeOpts := ⟨600, 100, 5000⟩

/-- One pause event between checks on a session. -/
inductive Pause
  | jitter (ms : ℚ)
  | rest (ms : ℚ)
  | extended (ms : ℚ)
deriving DecidableEq

/-- The pauses the loop takes after completing check `i` of a chunk of
`n` numbers. -/
def pausesAfter (opts : SafeOpts) (rJit rBrk : Nat → ℚ) (n i : Nat) :
    List Pause :=
  (if i + 1 < n then
      [Pause.jitter (opts.checkDelay * (4/5 + rJit i * (2/5)))]
    else [])
    ++ ((if (i + 1) % opts.batchSize = 0 ∧ i + 1 < n then
        [Pause.rest (opts.breakDuration + rBrk i * 2000)]
      else [])
    ++ (if (i + 1) % 200 = 0 ∧ i + 1 < n then [Pause.extended 10000] else []))

/-- All pauses of one session chunk run. -/
def chunkPauses (opts : SafeOpts) (rJit rBrk : Nat → ℚ) (n : Nat) :
    List Pause :=
  (List.range n).flatMap (pausesAfter opts rJit rBrk n)

/-- The C9 claim, for the pauses between check `i` and check `i + 1`. -/
def c9Claim (opts : SafeOpts) (rJit rBrk : Nat → ℚ) (n i : Nat) : Prop :=
  (Pause.jitter (opts.checkDelay * (4/5 + rJit i * (2/5))) ∈
      pausesAfter opts rJit rBrk n i
    ∧ (4/5 : ℚ) * opts.checkDelay ≤ opts.checkDelay * (4/5 + rJit i * (2/5))
    ∧ opts.checkDelay * (4/5 + rJit i * (2/5)) ≤ (6/5 : ℚ) * opts.checkDelay)
  ∧ ((i + 1) % opts.batchSize = 0 →
      Pause.rest (opts.breakDuration + rBrk i * 2000) ∈
          pausesAfter opts rJit rBrk n i
        ∧ opts.breakDuration ≤ opts.breakDuration + rBrk i * 2000
        ∧ opts.breakDuration + rBrk i * 2000 < opts.breakDuration + 2000)
  ∧ ((i + 1) % opts.batchSize ≠ 0 →
      ∀ d, Pause.rest d ∉ pausesAfter opts rJit rBrk n i)
  ∧ ((i + 1) % 200 = 0 →
      Pause.extended 10000 ∈ pausesAfter opts rJit rBrk n i)
  ∧ ((i + 1) % 200 ≠ 0 →
      ∀ d, Pause.extended d ∉ pausesAfter opts rJit rBrk n i)
  ∧ (opts = defaultSafeOpts →
      opts.breakDuration + rBrk i * 2000 < 10000)

/-- C9: between two consecutive checks the pause is
`checkDelay * (0.8 + U * 0.4)` — the base delay times a factor drawn from
`[0.8, 1.2)` — and after every `batchSize`-th completed check (and only
then) an additional rest pause of `breakDuration + U * 2000 ms` in
`[breakDuration, breakDuration + 2000)` is taken, and after every 200th
completed check (and only then) a longer 10000 ms rest is taken (longer
than any regular break under the default configuration). -/
theorem c9_delay_policy (opts : SafeOpts) (rJit rBrk : Nat → ℚ) (n i : Nat)
    (hd : 0 ≤ opts.checkDelay) (hj0 : 0 ≤ rJit i) (hj1 : rJit i < 1)
    (hb0 : 0 ≤ rBrk i) (hb1 : rBrk i < 1) (hi : i + 1 < n) :
    c9Claim opts rJit rBrk n i := by
  refine ⟨⟨?_, ?_, ?_⟩, ?_, ?_, ?_, ?_, ?_⟩
  · unfold pausesAfter
    rw [if_pos hi]
    exact List.mem_append.mpr (Or.inl (List.mem_singleton.mpr rfl))
  · have h1 : (0 : ℚ) ≤ opts.checkDelay * (rJit i * (2/5)) :=
      mul_nonneg hd (mul_nonneg hj0 (by norm_num))
    nlinarith
  · have h1 : (0 : ℚ) ≤ opts.checkDelay * ((1 - rJit i) * (2/5)) :=
      mul_nonneg hd (mul_nonneg (by linarith) (by norm_num))
    nlinarith
  · intro hbs
    refine ⟨?_, ?_, ?_⟩
    · unfold pausesAfter
      rw [if_pos hi, if_pos ⟨hbs, hi⟩]
      exact List.mem_append.mpr (Or.inr (List.mem_append.mpr
        (Or.inl (List.mem_singleton.mpr rfl))))
    · have : (0 : ℚ) ≤ rBrk i * 2000 := mul_nonneg hb0 (by norm_num)
      linarith
    · have : rBrk i * 2000 < 1 * 2000 :=
        mul_lt_mul_of_pos_right hb1 (by norm_num)
      linarith
  · intro hbs d hmem
    unfold pausesAfter at hmem
    rcases List.mem_append.mp hmem with h1 | h1
    · split at h1 <;> simp_all
    · rcases List.mem_append.mp h1 with h2 | h2
      · rw [if_neg (by tauto)] at h2
        cases h2
      · split at h2 <;> simp_all
  · intro h200
    unfold pausesAfter
    rw [if_pos hi]
    refine List.mem_append.mpr (Or.inr (List.mem_append.mpr (Or.inr ?_)))
    rw [if_pos ⟨h200, hi⟩]
    exact List.mem_singleton.mpr rfl
  · intro h200 d hmem
    unfold pausesAfter at hmem
    rcases List.mem_append.mp hmem with h1 | h1
    · split at h1 <;> simp_all
    · rcases List.mem_append.mp h1 with h2 | h2
      · split at h2 <;> simp_all
      · rw [if_neg (by tauto)] at h2
        cases h2
  · intro hdef
    rw [hdef]
    have : rBrk i * 2000 < 1 * 2000 :=
      mul_lt_mul_of_pos_right hb1 (by norm_num)
    have hb : defaultSafeOpts.breakDuration = 5000 := rfl
    rw [hb]
    linarith

/-- Witness for C9: the default configuration, both uniform draws at 1/2,
a 200-item chunk, between checks 100 and 101 (a batch boundary). -/
theorem c9_delay_policy_witness :
    c9Claim defaultSafeOpts (fun _j => 1/2) (fun _j => 1/2) 200 99 :=
  c9_delay_policy defaultSafeOpts (fun _j => 1/2) (fun _j => 1/2) 200 99
    (by norm_num [defaultSafeOpts]) (by norm_num) (by norm_num)
    (by norm_num) (by norm_num) (by norm_num)
